import Mathlib

/-!
Shallow embedding of the procli process supervisor (Rust) for verification.

Conventions of the embedding:
* `Instant` and `Duration` are modelled as `Nat` time units (seconds for the
  manager's restart cooloff, which the source builds with
  `Duration::from_secs`; abstract units — nanoseconds in the source — for the
  resampler, whose `Duration / u32` is truncating integer division on the
  underlying count, matching `Nat` division).  `Instant::duration_since`
  saturates at zero, matching `Nat` subtraction.
* `f32` sample values (`cpu_percent`, `memory_mb`, resampler samples) are
  modelled as `Rat`: only their linear order and `max` are used by the code
  under verification, and finite `f32` values embed order-faithfully in `ℚ`.
* `Uuid::new_v4()` (a fresh incarnation id per spawn) is modelled as a
  counter `next_uuid` threaded through the manager, with `Uuid::nil()` as `0`;
  freshness of the random v4 uuid becomes freshness of the counter.
* `ExitStatus` is an abstract `Nat` code.
* Fallible OS effects are passed in as explicit outcome arguments:
  `cmd.spawn()` returning `Err` is `none`, success with `child.id()` is
  `some cid`; the `sysinfo` snapshot used by `tick` is a function
  `Nat → Option SysInfo` from pid to the stats the OS reports.
* The `oneshot` closer channel held by a `Process` is `Option Unit`:
  `drop(self.closer.take())` sets it to `none`.
-/

namespace Procli

/-- `config::RestartPolicy` (src/config.rs). -/
structure RestartPolicy where
  enabled : Bool
  cooloff : Nat
  max_restarts : Nat
deriving DecidableEq

/-- `proc::stats::ProcessStats` (src/proc/stats.rs); `timestamp` is an
`Instant`, `cpu_percent`/`memory_mb` are `f32` modelled as `Rat`, `uptime`
a whole-second `Duration`. -/
structure ProcessStats where
  timestamp : Nat
  cpu_percent : Rat
  memory_mb : Rat
  uptime : Nat
deriving DecidableEq

/-- `proc::process::ProcessRestart`. -/
inductive ProcessRestart where
  | NoRestart
  | RestartAt (t : Nat)
deriving DecidableEq

/-- `proc::process::ProcessState`. -/
inductive ProcessState where
  | Starting
  | Running
  | Killing (r : ProcessRestart)
  | Stopped (r : ProcessRestart) (status : Nat)
deriving DecidableEq

/-- `proc::process::Process`.  The tokio `Command` field is irrelevant to the
claims (its construction success is carried by `Service.cmdOk` below) and the
`closer` oneshot receiver is modelled as `Option Unit`. -/
structure Process where
  name : String
  uuid : Nat
  closer : Option Unit
  state : ProcessState
  restarts : Nat
  restart_policy : RestartPolicy
  pid : Option Nat
  last_start : Option Nat
  last_stop : Option Nat
  stats : List ProcessStats
  stats_max : ProcessStats
deriving DecidableEq

/-- The parts of a `config::Service`/`Stub` spec that reach a `Process`
through the `Named`/`ProcessConfig` traits; `cmdOk` records whether
`build_command` succeeds for this spec. -/
structure Service where
  name : String
  restart : RestartPolicy
  cmdOk : Bool
deriving DecidableEq

/-- `Process::new` (src/proc/process.rs:141).  `now` is the creation instant,
used by `ProcessStats::default()` for the initial `stats_max.timestamp`;
`uuid` starts as `Uuid::nil()` = 0. -/
def Process.new (svc : Service) (now : Nat) : Process :=
  { name := svc.name
    uuid := 0
    closer := none
    state := ProcessState.Starting
    restarts := 0
    restart_policy := svc.restart
    pid := none
    last_start := none
    last_stop := none
    stats := []
    stats_max := { timestamp := now, cpu_percent := 0, memory_mb := 0, uptime := 0 } }

/-- `Process::spawn` (src/proc/process.rs:165).  `fresh` is the uuid produced
by `Uuid::new_v4()`, `osRes` is the outcome of `cmd.spawn()`: `none` for an
OS spawn error (the `?` return), `some cid` for success with `child.id()`
equal to `cid`.  The returned `Option Nat` is the function's
`Result<Uuid>`.  Note the source assigns `last_start` and `uuid` before the
fallible `cmd.spawn()?`, and never touches `state`. -/
def Process.spawn (p : Process) (now fresh : Nat) (osRes : Option (Option Nat)) :
    Process × Option Nat :=
  let p1 := { p with last_start := some now, uuid := fresh }
  match osRes with
  | none => (p1, none)
  | some cid => ({ p1 with pid := cid, closer := some () }, some fresh)

/-- `Process::kill` (src/proc/process.rs:192): `drop(self.closer.take())`. -/
def Process.kill (p : Process) : Process :=
  { p with closer := none }

/-- `Process::push_stats` (src/proc/process.rs:196).  `cpu_percent`,
`memory_mb` and `uptime` of `stats_max` are maxed with the new sample;
`timestamp` is overwritten with the sample's timestamp; state becomes
`Running`. -/
def Process.push_stats (p : Process) (s : ProcessStats) : Process :=
  { p with
    stats := p.stats ++ [s]
    stats_max :=
      { cpu_percent := max p.stats_max.cpu_percent s.cpu_percent
        memory_mb := max p.stats_max.memory_mb s.memory_mb
        uptime := max p.stats_max.uptime s.uptime
        timestamp := s.timestamp }
    state := ProcessState.Running }

/-! ## Resampler (src/resample.rs) -/

/-- The accumulator loop of `resample` over one bin: left fold over the
`(timestamp, sample)` pairs, keeping the running `max_value` of the samples
whose timestamp lies in `(lo, hi]`. -/
def binMaxAux (pairs : List (Nat × Rat)) (lo hi : Nat) (acc : Option Rat) : Option Rat :=
  match pairs with
  | [] => acc
  | (t, v) :: rest =>
      binMaxAux rest lo hi
        (if lo < t ∧ t ≤ hi then
          some (match acc with
                | some m => max m v
                | none => v)
         else acc)

/-- `resample` (src/resample.rs:5).  `start`/`stop` are the `start`/`end`
instants; `none` models the `panic!` on mismatched lengths, which the source
reaches only after the emptiness checks.  `stop - start` is the saturating
`end.duration_since(start)` and `/ n` the truncating `Duration / u32`. -/
def resample (samples : List Rat) (time_samples : List Nat)
    (start stop n : Nat) : Option (List (Option Rat)) :=
  if samples.isEmpty ∨ time_samples.isEmpty ∨ n = 0 then some []
  else if samples.length ≠ time_samples.length then none
  else
    let total := stop - start
    let binDur := total / n
    some ((List.range n).map (fun i =>
      binMaxAux (time_samples.zip samples)
        (start + binDur * i) (start + binDur * i + binDur) none))

/-- The sample values whose timestamp lies in the bin `(lo, hi]` — the
specification-side description of a bin's contents. -/
def binSamples (samples : List Rat) (time_samples : List Nat) (lo hi : Nat) : List Rat :=
  ((time_samples.zip samples).filter
    (fun tv => decide (lo < tv.1 ∧ tv.1 ≤ hi))).map (fun tv => tv.2)

/-! ## Process manager (src/proc/manager.rs) -/

/-- One pid's entry in the `sysinfo` snapshot consulted by `assign_stats`:
the fields `ProcessStats::new` reads from a `sysinfo::Process`. -/
structure SysInfo where
  cpu_percent : Rat
  memory_mb : Rat
  uptime : Nat

/-- `ProcessManager` (src/proc/manager.rs:21).  The event `sender` and the
`sysinfo::System` cache are I/O handles; the snapshot the cache delivers is
passed to `tick` explicitly.  `next_uuid` is the fresh-uuid supply modelling
`Uuid::new_v4()`. -/
structure ProcessManager where
  processes : List Process
  next_uuid : Nat
deriving DecidableEq

/-- The state update `process_died` applies to the matching process
(src/proc/manager.rs:137-144). -/
def process_died_update (p : Process) (status now : Nat) : Process :=
  if p.restart_policy.enabled ∧ p.restarts < p.restart_policy.max_restarts then
    { p with
      state := ProcessState.Stopped
        (ProcessRestart.RestartAt (now + p.restart_policy.cooloff)) status
      last_stop := some now }
  else
    { p with
      state := ProcessState.Stopped ProcessRestart.NoRestart status
      last_stop := some now }

/-- The `iter_mut().find(|p| p.uuid == id)` + update of `process_died`:
only the first process whose uuid matches is updated. -/
def process_died_list (ps : List Process) (id status now : Nat) : List Process :=
  match ps with
  | [] => []
  | p :: rest =>
      if p.uuid = id then process_died_update p status now :: rest
      else p :: process_died_list rest id status now

/-- `ProcessManager::process_died` (src/proc/manager.rs:135); the
no-match case only logs. -/
def ProcessManager.process_died (m : ProcessManager) (id status now : Nat) :
    ProcessManager :=
  { m with processes := process_died_list m.processes id status now }

/-- `find(name)` + `proc.spawn(sender)` inside `ProcessManager::spawn`:
the first process with the given name is respawned. -/
def spawn_in_list (ps : List Process) (name : String) (now fresh : Nat)
    (osRes : Option (Option Nat)) : List Process :=
  match ps with
  | [] => []
  | p :: rest =>
      if p.name = name then (p.spawn now fresh osRes).1 :: rest
      else p :: spawn_in_list rest name now fresh osRes

/-- Whether `find(name)` succeeds. -/
def hasName (ps : List Process) (name : String) : Bool :=
  ps.any (fun p => p.name = name)

/-- `ProcessManager::spawn` (src/proc/manager.rs:95).  When `find` fails the
method returns `Err` without consuming a uuid; otherwise `Uuid::new_v4()` is
drawn (here: `next_uuid`) and `Process::spawn` runs on the found process.
`osRes` maps the drawn uuid to the OS outcome of that spawn.  The trailing
`refresh_stats` only touches the `sysinfo` cache. -/
def ProcessManager.spawn (m : ProcessManager) (name : String) (now : Nat)
    (osRes : Nat → Option (Option Nat)) : ProcessManager :=
  if hasName m.processes name then
    { processes := spawn_in_list m.processes name now m.next_uuid (osRes m.next_uuid)
      next_uuid := m.next_uuid + 1 }
  else m

/-- `ProcessManager::upsert` (src/proc/manager.rs:117): push a new `Process`
built from the spec (an error in `build_command`, `svc.cmdOk = false`, leaves
the manager unchanged), then `spawn(name)` — which finds the FIRST process
with that name. -/
def ProcessManager.upsert (m : ProcessManager) (svc : Service) (now : Nat)
    (osRes : Nat → Option (Option Nat)) : ProcessManager :=
  if svc.cmdOk then
    ProcessManager.spawn
      { m with processes := m.processes ++ [Process.new svc now] } svc.name now osRes
  else m

/-- The `find(name)` + `kill` of `ProcessManager::remove`: the returned
`Bool` is the `Result` (`false` = the `NotFound` error). -/
def remove_list (ps : List Process) (name : String) : List Process × Bool :=
  match ps with
  | [] => ([], false)
  | p :: rest =>
      if p.name = name then (p.kill :: rest, true)
      else
        let r := remove_list rest name
        (p :: r.1, r.2)

/-- `ProcessManager::remove` (src/proc/manager.rs:150). -/
def ProcessManager.remove (m : ProcessManager) (name : String) :
    ProcessManager × Bool :=
  let r := remove_list m.processes name
  ({ m with processes := r.1 }, r.2)

/-- One process's share of `assign_stats` (src/proc/manager.rs:56): processes
with a pid that the snapshot reports get `push_stats` of a `ProcessStats`
built at instant `now`. -/
def assign_one (snap : Nat → Option SysInfo) (now : Nat) (p : Process) : Process :=
  match p.pid with
  | none => p
  | some pid =>
      match snap pid with
      | none => p
      | some info =>
          p.push_stats
            { timestamp := now
              cpu_percent := info.cpu_percent
              memory_mb := info.memory_mb
              uptime := info.uptime }

/-- `ProcessManager::assign_stats`. -/
def ProcessManager.assign_stats (m : ProcessManager) (snap : Nat → Option SysInfo)
    (now : Nat) : ProcessManager :=
  { m with processes := m.processes.map (assign_one snap now) }

/-- The restart-due test of `check_restarts` (src/proc/manager.rs:70):
`Stopped(RestartAt t, _)` with not `t > now`. -/
def dueRestart (p : Process) (now : Nat) : Bool :=
  match p.state with
  | ProcessState.Stopped (ProcessRestart.RestartAt t) _ => decide (t ≤ now)
  | _ => false

/-- The `proc.restarts += 1` a due process receives in the first loop of
`check_restarts`. -/
def mark_restart (now : Nat) (p : Process) : Process :=
  if dueRestart p now then { p with restarts := p.restarts + 1 } else p

/-- `ProcessManager::check_restarts` (src/proc/manager.rs:66): one pass
collects the names of due processes and increments their restart counters,
then each collected name is respawned through `ProcessManager.spawn` (which
finds the first process of that name); a spawn error is only logged. -/
def check_restarts (m : ProcessManager) (now : Nat)
    (osRes : Nat → Option (Option Nat)) : ProcessManager :=
  let names := (m.processes.filter (fun p => dueRestart p now)).map (fun p => p.name)
  let marked := m.processes.map (mark_restart now)
  names.foldl (fun m0 nm => m0.spawn nm now osRes) { m with processes := marked }

/-- `ProcessManager::tick` (src/proc/manager.rs:104): `refresh_stats` (which
only populates the `sysinfo` cache, here the `snap` argument), then
`assign_stats`, then `check_restarts`. -/
def ProcessManager.tick (m : ProcessManager) (now : Nat)
    (snap : Nat → Option SysInfo) (osRes : Nat → Option (Option Nat)) :
    ProcessManager :=
  check_restarts (m.assign_stats snap now) now osRes

/-- A direct `Process::push_stats` on the first process with the given name,
the per-process entry point `assign_stats` uses. -/
def push_stats_list (ps : List Process) (name : String) (s : ProcessStats) :
    List Process :=
  match ps with
  | [] => []
  | p :: rest =>
      if p.name = name then p.push_stats s :: rest
      else p :: push_stats_list rest name s

/-- One observable manager operation together with the external inputs it
consumes (clock readings, OS spawn outcomes, `sysinfo` snapshots). -/
inductive Op where
  | upsert (svc : Service) (now : Nat) (osRes : Nat → Option (Option Nat))
  | tick (now : Nat) (snap : Nat → Option SysInfo) (osRes : Nat → Option (Option Nat))
  | process_died (id status now : Nat)
  | remove (name : String)
  | push_stats (name : String) (s : ProcessStats)

/-- Interpretation of one operation on the manager. -/
def stepOp (m : ProcessManager) (op : Op) : ProcessManager :=
  match op with
  | Op.upsert svc now osRes => m.upsert svc now osRes
  | Op.tick now snap osRes => m.tick now snap osRes
  | Op.process_died id status now => m.process_died id status now
  | Op.remove name => (m.remove name).1
  | Op.push_stats name s => { m with processes := push_stats_list m.processes name s }

/-- `ProcessManager::new`: empty collection; the uuid supply starts above
`Uuid::nil()` = 0. -/
def initManager : ProcessManager :=
  { processes := [], next_uuid := 1 }

/-- A run of the manager from its initial state over a sequence of
operations. -/
def run (ops : List Op) : ProcessManager :=
  ops.foldl stepOp initManager

/-! ## Shared concrete fixtures -/

/-- A freshly constructed process with a disabled restart policy. -/
def pDis : Process :=
  Process.new { name := "p", restart := { enabled := false, cooloff := 0, max_restarts := 0 },
                cmdOk := true } 0

/-- A freshly constructed process with an enabled restart policy
(cooloff 2, max 5). -/
def pEn : Process :=
  Process.new { name := "q", restart := { enabled := true, cooloff := 2, max_restarts := 5 },
                cmdOk := true } 0

/-! ## Properties of `process_died` (claim C1) -/

theorem process_died_update_fields (p : Process) (status now : Nat) :
    (process_died_update p status now).last_stop = some now ∧
    (process_died_update p status now).name = p.name ∧
    (process_died_update p status now).uuid = p.uuid ∧
    (process_died_update p status now).restarts = p.restarts := by
  unfold process_died_update
  split <;> exact ⟨rfl, rfl, rfl, rfl⟩

theorem process_died_update_state_restart (p : Process) (status now : Nat)
    (h1 : p.restart_policy.enabled = true)
    (h2 : p.restarts < p.restart_policy.max_restarts) :
    (process_died_update p status now).state =
      ProcessState.Stopped
        (ProcessRestart.RestartAt (now + p.restart_policy.cooloff)) status := by
  unfold process_died_update
  rw [if_pos ⟨h1, h2⟩]

theorem process_died_update_state_norestart (p : Process) (status now : Nat)
    (h : p.restart_policy.enabled = false ∨ p.restart_policy.max_restarts ≤ p.restarts) :
    (process_died_update p status now).state =
      ProcessState.Stopped ProcessRestart.NoRestart status := by
  unfold process_died_update
  rw [if_neg]
  rintro ⟨he, hr⟩
  rcases h with h | h
  · rw [h] at he
    exact Bool.false_ne_true he
  · exact absurd (lt_of_lt_of_le hr h) (lt_irrefl _)

/-- C1 (amended): `process_died` updates the first process in collection
order whose incarnation id matches, leaving every other record unchanged; the
updated record has `last_stop = now` and its state becomes
`Stopped(RestartAt(now + cooloff), status)` when the restart policy is
enabled and the counter is strictly below the maximum, and
`Stopped(NoRestart, status)` otherwise. -/
theorem process_died_first_match (l1 l2 : List Process) (p : Process)
    (id status now : Nat)
    (hskip : ∀ q ∈ l1, q.uuid ≠ id) (hp : p.uuid = id) :
    ∃ p2, process_died_list (l1 ++ p :: l2) id status now = l1 ++ p2 :: l2 ∧
      p2.last_stop = some now ∧
      p2.name = p.name ∧ p2.uuid = p.uuid ∧ p2.restarts = p.restarts ∧
      (p.restart_policy.enabled = true →
        p.restarts < p.restart_policy.max_restarts →
        p2.state = ProcessState.Stopped
          (ProcessRestart.RestartAt (now + p.restart_policy.cooloff)) status) ∧
      ((p.restart_policy.enabled = false ∨
        p.restart_policy.max_restarts ≤ p.restarts) →
        p2.state = ProcessState.Stopped ProcessRestart.NoRestart status) := by
  induction l1 with
  | nil =>
      refine ⟨process_died_update p status now, ?_, ?_, ?_, ?_, ?_, ?_, ?_⟩
      · simp [process_died_list, hp]
      · exact (process_died_update_fields p status now).1
      · exact (process_died_update_fields p status now).2.1
      · exact (process_died_update_fields p status now).2.2.1
      · exact (process_died_update_fields p status now).2.2.2
      · exact fun h1 h2 => process_died_update_state_restart p status now h1 h2
      · exact fun h => process_died_update_state_norestart p status now h
  | cons q rest ih =>
      have hq : q.uuid ≠ id := hskip q (List.mem_cons_self q rest)
      obtain ⟨p2, heq, hrest⟩ :=
        ih (fun r hr => hskip r (List.mem_cons_of_mem q hr))
      refine ⟨p2, ?_, hrest⟩
      simpa [process_died_list, hq] using heq

/-- Witness for C1's amended theorem at a concrete input: a single enabled
process whose uuid matches. -/
theorem process_died_first_match_witness :
    ∃ p2, process_died_list ([] ++ pEn :: []) 0 7 5 = [] ++ p2 :: [] ∧
      p2.last_stop = some 5 ∧
      p2.name = pEn.name ∧ p2.uuid = pEn.uuid ∧ p2.restarts = pEn.restarts ∧
      (pEn.restart_policy.enabled = true →
        pEn.restarts < pEn.restart_policy.max_restarts →
        p2.state = ProcessState.Stopped
          (ProcessRestart.RestartAt (5 + pEn.restart_policy.cooloff)) 7) ∧
      ((pEn.restart_policy.enabled = false ∨
        pEn.restart_policy.max_restarts ≤ pEn.restarts) →
        p2.state = ProcessState.Stopped ProcessRestart.NoRestart 7) :=
  process_died_first_match [] [] pEn 0 7 5 (by decide) (by decide)

/-- Counterexample to C1 as stated: with two tracked processes both carrying
uuid 0 (reachable: `upsert` never deduplicates and `Process::new` starts every
record at `Uuid::nil()`), `process_died(0, 7)` at time 5 updates only the
first; the second matching process keeps state `Starting` and an empty
`last_stop`, though the claim requires every matching process to move to
`Stopped` with `last_stop = now`. -/
theorem process_died_every_match_cex :
    pEn.uuid = 0 ∧ pEn.restart_policy.enabled = true ∧
    pEn.restarts < pEn.restart_policy.max_restarts ∧
    (process_died_list [pDis, pEn] 0 7 5)[1]? = some pEn ∧
    pEn.state ≠ ProcessState.Stopped
      (ProcessRestart.RestartAt (5 + pEn.restart_policy.cooloff)) 7 ∧
    pEn.last_stop ≠ some 5 := by decide

/-! ## `remove` on an unknown name (claim C9) -/

theorem remove_list_not_found (ps : List Process) (name : String)
    (h : ∀ p ∈ ps, p.name ≠ name) : remove_list ps name = (ps, false) := by
  induction ps with
  | nil => rfl
  | cons p rest ih =>
      have hp : p.name ≠ name := h p (List.mem_cons_self p rest)
      have := ih (fun q hq => h q (List.mem_cons_of_mem p hq))
      simp [remove_list, hp, this]

/-- C9: `remove` on a name carried by no tracked process returns the
`NotFound`-class error (`false` models the `Err` of `ok_or_eyre`) and leaves
the manager — every process record included — unchanged. -/
theorem remove_unknown_name (m : ProcessManager) (name : String)
    (h : ∀ p ∈ m.processes, p.name ≠ name) :
    m.remove name = (m, false) := by
  unfold ProcessManager.remove
  rw [remove_list_not_found m.processes name h]

/-- Witness for C9 at a concrete manager holding one process named "p". -/
theorem remove_unknown_name_witness :
    ProcessManager.remove { processes := [pDis], next_uuid := 4 } "absent" =
      ({ processes := [pDis], next_uuid := 4 }, false) :=
  remove_unknown_name { processes := [pDis], next_uuid := 4 } "absent" (by decide)

/-! ## `kill` (claim C8) -/

/-- C8: `kill` only drops the closer channel end, so it is idempotent —
`kill(); kill()` leaves the record exactly as one `kill()` does, and killing
a process whose channel end is already absent is the identity — and it never
changes the `ProcessState` field. -/
theorem kill_idempotent_state_preserved (p : Process) :
    Process.kill (Process.kill p) = Process.kill p ∧
    (Process.kill p).state = p.state ∧
    (p.closer = none → Process.kill p = p) := by
  refine ⟨rfl, rfl, fun h => ?_⟩
  unfold Process.kill
  rw [← h]

/-- Witness for C8 (its only hypothesis is the inner no-op implication):
instantiated at a process whose closer is already absent. -/
theorem kill_idempotent_state_preserved_witness :
    Process.kill (Process.kill pDis) = Process.kill pDis ∧
    (Process.kill pDis).state = pDis.state ∧
    (pDis.closer = none → Process.kill pDis = pDis) :=
  kill_idempotent_state_preserved pDis

/-! ## `push_stats` and `stats_max` (claim C7) -/

/-- C7 (amended): across two consecutive `push_stats` calls the
`cpu_percent`, `memory_mb` and `uptime` fields of `stats_max` never
decrease, but the `timestamp` field is overwritten with the latest sample's
timestamp, so it is non-decreasing only when the samples arrive with
non-decreasing timestamps. -/
theorem push_stats_max_monotone (p : Process) (s1 s2 : ProcessStats) :
    (p.push_stats s1).stats_max.cpu_percent ≤
      ((p.push_stats s1).push_stats s2).stats_max.cpu_percent ∧
    (p.push_stats s1).stats_max.memory_mb ≤
      ((p.push_stats s1).push_stats s2).stats_max.memory_mb ∧
    (p.push_stats s1).stats_max.uptime ≤
      ((p.push_stats s1).push_stats s2).stats_max.uptime ∧
    ((p.push_stats s1).push_stats s2).stats_max.timestamp = s2.timestamp := by
  refine ⟨?_, ?_, ?_, rfl⟩ <;>
    exact le_max_left _ _

/-- Counterexample to C7 as stated: pushing a sample stamped 5 and then one
stamped 3 makes `stats_max.timestamp` drop from 5 to 3, so not every field of
`stats_max` is monotonically non-decreasing. -/
theorem push_stats_timestamp_decreases_cex :
    ((pDis.push_stats { timestamp := 5, cpu_percent := 0, memory_mb := 0, uptime := 0 }).push_stats
        { timestamp := 3, cpu_percent := 0, memory_mb := 0, uptime := 0 }).stats_max.timestamp <
      (pDis.push_stats
        { timestamp := 5, cpu_percent := 0, memory_mb := 0, uptime := 0 }).stats_max.timestamp := by
  decide

/-! ## `Process::spawn` failure is not atomic (claim C10) -/

/-- C10: when the OS cannot start the command (`cmd.spawn()` returns an
error, `osRes = none`), `Process::spawn` returns the error but has already
replaced the incarnation id with the fresh one and set `last_start` to the
call time, while state, restart counter, restart policy, pid, stats history
and `stats_max` are untouched. -/
theorem spawn_failure_not_atomic (p : Process) (now fresh : Nat)
    (hne : fresh ≠ p.uuid) :
    (p.spawn now fresh none).2 = none ∧
    (p.spawn now fresh none).1.uuid = fresh ∧
    (p.spawn now fresh none).1.uuid ≠ p.uuid ∧
    (p.spawn now fresh none).1.last_start = some now ∧
    (p.spawn now fresh none).1.state = p.state ∧
    (p.spawn now fresh none).1.restarts = p.restarts ∧
    (p.spawn now fresh none).1.restart_policy = p.restart_policy ∧
    (p.spawn now fresh none).1.pid = p.pid ∧
    (p.spawn now fresh none).1.stats = p.stats ∧
    (p.spawn now fresh none).1.stats_max = p.stats_max :=
  ⟨rfl, rfl, hne, rfl, rfl, rfl, rfl, rfl, rfl, rfl⟩

/-- Witness for C10 at a concrete process and fresh uuid. -/
theorem spawn_failure_not_atomic_witness :
    (pEn.spawn 4 3 none).2 = none ∧
    (pEn.spawn 4 3 none).1.uuid = 3 ∧
    (pEn.spawn 4 3 none).1.uuid ≠ pEn.uuid ∧
    (pEn.spawn 4 3 none).1.last_start = some 4 ∧
    (pEn.spawn 4 3 none).1.state = pEn.state ∧
    (pEn.spawn 4 3 none).1.restarts = pEn.restarts ∧
    (pEn.spawn 4 3 none).1.restart_policy = pEn.restart_policy ∧
    (pEn.spawn 4 3 none).1.pid = pEn.pid ∧
    (pEn.spawn 4 3 none).1.stats = pEn.stats ∧
    (pEn.spawn 4 3 none).1.stats_max = pEn.stats_max :=
  spawn_failure_not_atomic pEn 4 3 (by decide)

/-! ## Resampler empty cases (claim C6) -/

/-- C6: `resample` returns the empty sequence (and not an error) whenever the
bin count is zero, or the samples list is empty, or the timestamps list is
empty — these checks precede the length-mismatch panic. -/
theorem resample_empty_cases (samples : List Rat) (time_samples : List Nat)
    (start stop n : Nat)
    (h : samples = [] ∨ time_samples = [] ∨ n = 0) :
    resample samples time_samples start stop n = some [] := by
  unfold resample
  rw [if_pos]
  rcases h with h | h | h
  · exact Or.inl (by simp [h])
  · exact Or.inr (Or.inl (by simp [h]))
  · exact Or.inr (Or.inr h)

/-- Witness for C6: zero bins over a nonempty series. -/
theorem resample_empty_cases_witness :
    resample [3, 4] [1, 2] 0 10 0 = some [] :=
  resample_empty_cases [3, 4] [1, 2] 0 10 0 (by decide)

/-! ## The bin fold computes the maximum (claims C4, C5) -/

theorem binMaxAux_some (pairs : List (Nat × Rat)) (lo hi : Nat) (m : Rat) :
    ∃ v, binMaxAux pairs lo hi (some m) = some v := by
  induction pairs generalizing m with
  | nil => exact ⟨m, rfl⟩
  | cons tv rest ih =>
      obtain ⟨t, w⟩ := tv
      simp only [binMaxAux]
      by_cases hb : lo < t ∧ t ≤ hi
      · rw [if_pos hb]
        exact ih (max m w)
      · rw [if_neg hb]
        exact ih m

theorem binMaxAux_ne_none (pairs : List (Nat × Rat)) (lo hi : Nat) (m : Rat) :
    binMaxAux pairs lo hi (some m) ≠ none := by
  obtain ⟨v, hv⟩ := binMaxAux_some pairs lo hi m
  simp [hv]

theorem binMaxAux_eq_none (pairs : List (Nat × Rat)) (lo hi : Nat) :
    binMaxAux pairs lo hi none = none ↔
      pairs.filter (fun tv => decide (lo < tv.1 ∧ tv.1 ≤ hi)) = [] := by
  induction pairs with
  | nil => simp [binMaxAux]
  | cons tv rest ih =>
      obtain ⟨t, w⟩ := tv
      simp only [binMaxAux]
      by_cases hb : lo < t ∧ t ≤ hi
      · rw [if_pos hb]
        refine iff_of_false (binMaxAux_ne_none rest lo hi w) ?_
        simp [List.filter_cons, hb]
      · rw [if_neg hb]
        rw [ih]
        simp [List.filter_cons, hb]

theorem binMaxAux_le (pairs : List (Nat × Rat)) (lo hi : Nat) :
    ∀ m v, binMaxAux pairs lo hi (some m) = some v → m ≤ v := by
  induction pairs with
  | nil =>
      intro m v h
      cases h
      exact le_refl _
  | cons tv rest ih =>
      obtain ⟨t, w⟩ := tv
      intro m v h
      simp only [binMaxAux] at h
      by_cases hb : lo < t ∧ t ≤ hi
      · rw [if_pos hb] at h
        exact le_trans (le_max_left m w) (ih (max m w) v h)
      · rw [if_neg hb] at h
        exact ih m v h

theorem binMaxAux_mem (pairs : List (Nat × Rat)) (lo hi : Nat) :
    ∀ acc v, binMaxAux pairs lo hi acc = some v →
      v ∈ (pairs.filter (fun tv => decide (lo < tv.1 ∧ tv.1 ≤ hi))).map
            (fun tv => tv.2) ∨ acc = some v := by
  induction pairs with
  | nil =>
      intro acc v h
      exact Or.inr h
  | cons tv rest ih =>
      obtain ⟨t, w⟩ := tv
      intro acc v h
      simp only [binMaxAux] at h
      have hpos : lo < t ∧ t ≤ hi →
          List.filter (fun tv => decide (lo < tv.1 ∧ tv.1 ≤ hi)) ((t, w) :: rest) =
            (t, w) :: List.filter (fun tv => decide (lo < tv.1 ∧ tv.1 ≤ hi)) rest := by
        intro hb
        simp [List.filter_cons, hb]
      have hneg : ¬(lo < t ∧ t ≤ hi) →
          List.filter (fun tv => decide (lo < tv.1 ∧ tv.1 ≤ hi)) ((t, w) :: rest) =
            List.filter (fun tv => decide (lo < tv.1 ∧ tv.1 ≤ hi)) rest := by
        intro hb
        simp [List.filter_cons, hb]
      by_cases hb : lo < t ∧ t ≤ hi
      · rw [if_pos hb] at h
        rcases ih _ v h with hm | hacc
        · left
          rw [hpos hb, List.map_cons]
          exact List.mem_cons_of_mem w hm
        · cases acc with
          | none =>
              left
              have hw : w = v := Option.some_injective _ hacc
              rw [hpos hb, List.map_cons, hw]
              exact List.mem_cons_self v _
          | some m =>
              have hmax : max m w = v := Option.some_injective _ hacc
              rcases max_choice m w with hc | hc
              · right
                rw [← hmax, hc]
              · left
                rw [← hmax, hc, hpos hb, List.map_cons]
                exact List.mem_cons_self w _
      · rw [if_neg hb] at h
        rcases ih acc v h with hm | hacc
        · left
          rw [hneg hb]
          exact hm
        · right
          exact hacc

theorem binMaxAux_ge (pairs : List (Nat × Rat)) (lo hi : Nat) :
    ∀ acc v u, binMaxAux pairs lo hi acc = some v →
      u ∈ (pairs.filter (fun tv => decide (lo < tv.1 ∧ tv.1 ≤ hi))).map
            (fun tv => tv.2) → u ≤ v := by
  induction pairs with
  | nil =>
      intro acc v u _ hu
      simp at hu
  | cons tv rest ih =>
      obtain ⟨t, w⟩ := tv
      intro acc v u h hu
      simp only [binMaxAux] at h
      have hpos : lo < t ∧ t ≤ hi →
          List.filter (fun tv => decide (lo < tv.1 ∧ tv.1 ≤ hi)) ((t, w) :: rest) =
            (t, w) :: List.filter (fun tv => decide (lo < tv.1 ∧ tv.1 ≤ hi)) rest := by
        intro hb
        simp [List.filter_cons, hb]
      have hneg : ¬(lo < t ∧ t ≤ hi) →
          List.filter (fun tv => decide (lo < tv.1 ∧ tv.1 ≤ hi)) ((t, w) :: rest) =
            List.filter (fun tv => decide (lo < tv.1 ∧ tv.1 ≤ hi)) rest := by
        intro hb
        simp [List.filter_cons, hb]
      by_cases hb : lo < t ∧ t ≤ hi
      · rw [if_pos hb] at h
        rw [hpos hb, List.map_cons] at hu
        rcases List.mem_cons.mp hu with rfl | hu2
        · have hgot : ∃ m0, (if lo < t ∧ t ≤ hi then
              some (match acc with | some m => max m u | none => u)
            else acc) = some m0 ∧ u ≤ m0 := by
            rw [if_pos hb]
            cases acc with
            | none => exact ⟨u, rfl, le_refl u⟩
            | some m => exact ⟨max m u, rfl, le_max_right m u⟩
          obtain ⟨m0, hm0, hum0⟩ := hgot
          rw [if_pos hb] at hm0
          rw [hm0] at h
          exact le_trans hum0 (binMaxAux_le rest lo hi m0 v h)
        · exact ih _ v u h hu2
      · rw [if_neg hb] at h
        refine ih acc v u h ?_
        rw [hneg hb] at hu
        exact hu

/-- C4: over any window and any positive bin count, given non-empty samples
and timestamps of equal length, `resample` returns exactly `n` bins; bin `i`
covers the half-open interval from `start + binDur * i` exclusive to
`start + binDur * (i+1)` inclusive with `binDur = (stop - start) / n`; a bin
is absent exactly when no timestamp falls in its interval, and a present bin
equals the maximum of the sample values whose timestamps fall in it. -/
theorem resample_bins_spec (samples : List Rat) (time_samples : List Nat)
    (start stop n : Nat)
    (hs : samples ≠ []) (ht : time_samples ≠ [])
    (hlen : samples.length = time_samples.length) (hn : 0 < n) :
    ∃ r, resample samples time_samples start stop n = some r ∧
      r.length = n ∧
      ∀ i, i < n →
        (r[i]? = some none ↔
          binSamples samples time_samples
            (start + (stop - start) / n * i)
            (start + (stop - start) / n * i + (stop - start) / n) = []) ∧
        (∀ v, r[i]? = some (some v) →
          v ∈ binSamples samples time_samples
                (start + (stop - start) / n * i)
                (start + (stop - start) / n * i + (stop - start) / n) ∧
          ∀ u ∈ binSamples samples time_samples
                  (start + (stop - start) / n * i)
                  (start + (stop - start) / n * i + (stop - start) / n),
            u ≤ v) := by
  have hcond : ¬(samples.isEmpty ∨ time_samples.isEmpty ∨ n = 0) := by
    simp [List.isEmpty_iff, hs, ht]
    omega
  refine ⟨(List.range n).map (fun i =>
      binMaxAux (time_samples.zip samples)
        (start + (stop - start) / n * i)
        (start + (stop - start) / n * i + (stop - start) / n) none), ?_, ?_, ?_⟩
  · unfold resample
    rw [if_neg hcond, if_neg (fun hcon => hcon hlen)]
  · simp
  · intro i hi
    have hget : ((List.range n).map (fun i =>
        binMaxAux (time_samples.zip samples)
          (start + (stop - start) / n * i)
          (start + (stop - start) / n * i + (stop - start) / n) none))[i]? =
        some (binMaxAux (time_samples.zip samples)
          (start + (stop - start) / n * i)
          (start + (stop - start) / n * i + (stop - start) / n) none) := by
      simp [List.getElem?_map, List.getElem?_range, hi]
    constructor
    · rw [hget]
      rw [show ∀ a b : Option Rat, (some a = some b) ↔ a = b from fun a b => Option.some_inj]
      rw [binMaxAux_eq_none]
      unfold binSamples
      simp
    · intro v hv
      rw [hget] at hv
      have hv2 : binMaxAux (time_samples.zip samples)
          (start + (stop - start) / n * i)
          (start + (stop - start) / n * i + (stop - start) / n) none = some v :=
        Option.some_inj.mp hv
      constructor
      · rcases binMaxAux_mem _ _ _ none v hv2 with hm | hacc
        · exact hm
        · exact absurd hacc (by simp)
      · intro u hu
        exact binMaxAux_ge _ _ _ none v u hv2 hu

/-- Witness for C4 at the spec's own end-to-end example: samples
`[10, 20]` at timestamps `[20, 30]`, window `[0, 100)`, 4 bins. -/
theorem resample_bins_spec_witness :
    ∃ r, resample [10, 20] [20, 30] 0 100 4 = some r ∧
      r.length = 4 ∧
      ∀ i, i < 4 →
        (r[i]? = some none ↔
          binSamples [10, 20] [20, 30]
            (0 + (100 - 0) / 4 * i) (0 + (100 - 0) / 4 * i + (100 - 0) / 4) = []) ∧
        (∀ v, r[i]? = some (some v) →
          v ∈ binSamples [10, 20] [20, 30]
                (0 + (100 - 0) / 4 * i) (0 + (100 - 0) / 4 * i + (100 - 0) / 4) ∧
          ∀ u ∈ binSamples [10, 20] [20, 30]
                  (0 + (100 - 0) / 4 * i) (0 + (100 - 0) / 4 * i + (100 - 0) / 4),
            u ≤ v) :=
  resample_bins_spec [10, 20] [20, 30] 0 100 4
    (by decide) (by decide) (by decide) (by decide)

/-- C5 (amended): no bin's contents ever include a sample whose timestamp is
exactly `start` (every contributing timestamp is strictly above `start`),
and — provided the bin count divides the window length exactly, so that the
last bin's upper edge is `stop` — a sample whose timestamp is exactly `stop`
belongs to the last bin, which is then present and at least that sample's
value. -/
theorem resample_boundary_spec (samples : List Rat) (time_samples : List Nat)
    (start stop n : Nat)
    (hs : samples ≠ []) (ht : time_samples ≠ [])
    (hlen : samples.length = time_samples.length) (hn : 0 < n) :
    (∀ i, i < n →
      ∀ tv ∈ (time_samples.zip samples).filter
          (fun tv => decide (start + (stop - start) / n * i < tv.1 ∧
            tv.1 ≤ start + (stop - start) / n * i + (stop - start) / n)),
        start < tv.1) ∧
    ((stop - start) % n = 0 → start < stop →
      ∀ tv ∈ time_samples.zip samples, tv.1 = stop →
        tv.2 ∈ binSamples samples time_samples
            (start + (stop - start) / n * (n - 1))
            (start + (stop - start) / n * (n - 1) + (stop - start) / n) ∧
        ∃ r w, resample samples time_samples start stop n = some r ∧
          r[n - 1]? = some (some w) ∧ tv.2 ≤ w) := by
  constructor
  · intro i _ tv htv
    have hin : start + (stop - start) / n * i < tv.1 ∧
        tv.1 ≤ start + (stop - start) / n * i + (stop - start) / n := by
      have := List.of_mem_filter htv
      exact of_decide_eq_true this
    exact lt_of_le_of_lt (Nat.le_add_right start _) hin.1
  · intro hmod hlt tv htv hstop
    have hd : (stop - start) / n * n = stop - start :=
      Nat.div_mul_cancel (Nat.dvd_of_mod_eq_zero hmod)
    have hdpos : 0 < (stop - start) / n := by
      rcases Nat.eq_zero_or_pos ((stop - start) / n) with h0 | h0
      · rw [h0, Nat.zero_mul] at hd
        omega
      · exact h0
    have hhi : start + (stop - start) / n * (n - 1) + (stop - start) / n = stop := by
      have h1 : (stop - start) / n * (n - 1) + (stop - start) / n =
          (stop - start) / n * n := by
        cases n with
        | zero => exact absurd hn (lt_irrefl 0)
        | succ k => simp [Nat.mul_succ]
      rw [Nat.add_assoc, h1, hd]
      omega
    have hlo : start + (stop - start) / n * (n - 1) < stop := by
      have h2 : (stop - start) / n * (n - 1) < (stop - start) / n * n :=
        mul_lt_mul_of_pos_left (Nat.sub_lt hn Nat.one_pos) hdpos
      calc start + (stop - start) / n * (n - 1)
          < start + (stop - start) / n * n := by omega
        _ = stop := by rw [hd]; omega
    have hinbin : (decide (start + (stop - start) / n * (n - 1) < tv.1 ∧
        tv.1 ≤ start + (stop - start) / n * (n - 1) + (stop - start) / n)) = true := by
      rw [decide_eq_true_eq]
      rw [hstop]
      exact ⟨hlo, le_of_eq hhi.symm⟩
    have hfil : tv ∈ (time_samples.zip samples).filter
        (fun tv => decide (start + (stop - start) / n * (n - 1) < tv.1 ∧
          tv.1 ≤ start + (stop - start) / n * (n - 1) + (stop - start) / n)) :=
      List.mem_filter.mpr ⟨htv, hinbin⟩
    have hmem : tv.2 ∈ binSamples samples time_samples
        (start + (stop - start) / n * (n - 1))
        (start + (stop - start) / n * (n - 1) + (stop - start) / n) := by
      unfold binSamples
      exact List.mem_map_of_mem (fun tv => tv.2) hfil
    refine ⟨hmem, ?_⟩
    obtain ⟨r, hr, hrlen, hprop⟩ :=
      resample_bins_spec samples time_samples start stop n hs ht hlen hn
    have hn1 : n - 1 < n := Nat.sub_lt hn Nat.one_pos
    obtain ⟨hiff, hmax⟩ := hprop (n - 1) hn1
    have hrsome : ∃ w, r[n - 1]? = some (some w) := by
      have hlen2 : n - 1 < r.length := by
        rw [hrlen]
        exact hn1
      have : ∃ x, r[n - 1]? = some x := ⟨r[n - 1], List.getElem?_eq_getElem hlen2⟩
      obtain ⟨x, hx⟩ := this
      cases x with
      | none =>
          exfalso
          have hempty := hiff.mp hx
          rw [hempty] at hmem
          simp at hmem
      | some w => exact ⟨w, hx⟩
    obtain ⟨w, hw⟩ := hrsome
    obtain ⟨_, hge⟩ := hmax w hw
    exact ⟨r, w, hr, hw, hge tv.2 hmem⟩

/-- Witness for C5's amended theorem: one sample valued 2 stamped exactly at
`stop = 4`, window `[0, 4)`, 2 bins (bin width 2 divides the window): the
sample lands in the last bin `(2, 4]` and the last bin is present. -/
theorem resample_boundary_spec_witness :
    (∀ i, i < 2 →
      ∀ tv ∈ (([4] : List Nat).zip [(2 : Rat)]).filter
          (fun tv => decide (0 + (4 - 0) / 2 * i < tv.1 ∧
            tv.1 ≤ 0 + (4 - 0) / 2 * i + (4 - 0) / 2)),
        0 < tv.1) ∧
    ((4 - 0) % 2 = 0 → 0 < 4 →
      ∀ tv ∈ ([4] : List Nat).zip [(2 : Rat)], tv.1 = 4 →
        tv.2 ∈ binSamples [2] [4] (0 + (4 - 0) / 2 * (2 - 1))
            (0 + (4 - 0) / 2 * (2 - 1) + (4 - 0) / 2) ∧
        ∃ r w, resample [2] [4] 0 4 2 = some r ∧
          r[2 - 1]? = some (some w) ∧ tv.2 ≤ w) :=
  resample_boundary_spec [2] [4] 0 4 2 (by decide) (by decide) (by decide) (by decide)

/-- Counterexample to C5 as stated: a single sample stamped exactly at
`end = 10`, resampled into 3 bins over `[0, 10)`.  The truncating bin width
is 3, the last bin is `(6, 9]`, so the sample at `end` is in no bin at all —
the result is all-absent and the last bin's contents are empty — although the
claim requires a sample at exactly `end` to be included in the last bin. -/
theorem resample_end_sample_excluded_cex :
    resample [1] [10] 0 10 3 = some [none, none, none] ∧
    binSamples [1] [10] (0 + (10 - 0) / 3 * 2) (0 + (10 - 0) / 3 * 2 + (10 - 0) / 3) =
      [] := by
  decide

/-! ## The restart-intent invariant over manager runs (claim C3) -/

/-- Whether a state carries a `RestartAt` intent. -/
def hasRestartAt : ProcessState → Bool
  | ProcessState.Killing (ProcessRestart.RestartAt _) => true
  | ProcessState.Stopped (ProcessRestart.RestartAt _) _ => true
  | _ => false

/-- The part of the claimed invariant that the code maintains: a state
carrying `RestartAt` belongs to a process whose restart policy is enabled. -/
def RInv (p : Process) : Prop :=
  hasRestartAt p.state = true → p.restart_policy.enabled = true

theorem RInv_of_same (p q : Process) (h1 : q.state = p.state)
    (h2 : q.restart_policy = p.restart_policy) (hp : RInv p) : RInv q := by
  intro h
  rw [h2]
  apply hp
  rw [← h1]
  exact h

theorem RInv_new (svc : Service) (now : Nat) : RInv (Process.new svc now) :=
  fun h => absurd h Bool.false_ne_true

theorem RInv_push_stats (p : Process) (s : ProcessStats) : RInv (p.push_stats s) :=
  fun h => absurd h Bool.false_ne_true

theorem spawn_fst_state (p : Process) (now fresh : Nat) (os : Option (Option Nat)) :
    (p.spawn now fresh os).1.state = p.state := by
  cases os <;> rfl

theorem spawn_fst_policy (p : Process) (now fresh : Nat) (os : Option (Option Nat)) :
    (p.spawn now fresh os).1.restart_policy = p.restart_policy := by
  cases os <;> rfl

theorem spawn_fst_name (p : Process) (now fresh : Nat) (os : Option (Option Nat)) :
    (p.spawn now fresh os).1.name = p.name := by
  cases os <;> rfl

theorem spawn_fst_uuid (p : Process) (now fresh : Nat) (os : Option (Option Nat)) :
    (p.spawn now fresh os).1.uuid = fresh := by
  cases os <;> rfl

theorem spawn_fst_restarts (p : Process) (now fresh : Nat) (os : Option (Option Nat)) :
    (p.spawn now fresh os).1.restarts = p.restarts := by
  cases os <;> rfl

theorem spawn_fst_last_start (p : Process) (now fresh : Nat) (os : Option (Option Nat)) :
    (p.spawn now fresh os).1.last_start = some now := by
  cases os <;> rfl

theorem RInv_spawn (p : Process) (now fresh : Nat) (os : Option (Option Nat))
    (hp : RInv p) : RInv (p.spawn now fresh os).1 :=
  RInv_of_same p _ (spawn_fst_state p now fresh os) (spawn_fst_policy p now fresh os) hp

theorem RInv_kill (p : Process) (hp : RInv p) : RInv p.kill :=
  RInv_of_same p _ rfl rfl hp

theorem RInv_died_update (p : Process) (status now : Nat) :
    RInv (process_died_update p status now) := by
  unfold RInv process_died_update
  by_cases hcond : p.restart_policy.enabled ∧ p.restarts < p.restart_policy.max_restarts
  · rw [if_pos hcond]
    intro _
    exact hcond.1
  · rw [if_neg hcond]
    intro h
    exact absurd h Bool.false_ne_true

theorem assign_one_name (snap : Nat → Option SysInfo) (now : Nat) (p : Process) :
    (assign_one snap now p).name = p.name := by
  unfold assign_one
  split
  · rfl
  · split
    · rfl
    · rfl

theorem assign_one_uuid (snap : Nat → Option SysInfo) (now : Nat) (p : Process) :
    (assign_one snap now p).uuid = p.uuid := by
  unfold assign_one
  split
  · rfl
  · split
    · rfl
    · rfl

theorem assign_one_restarts (snap : Nat → Option SysInfo) (now : Nat) (p : Process) :
    (assign_one snap now p).restarts = p.restarts := by
  unfold assign_one
  split
  · rfl
  · split
    · rfl
    · rfl

theorem RInv_assign_one (snap : Nat → Option SysInfo) (now : Nat) (p : Process)
    (hp : RInv p) : RInv (assign_one snap now p) := by
  unfold assign_one
  split
  · exact hp
  · split
    · exact hp
    · exact RInv_push_stats p _

theorem RInv_spawn_in_list :
    ∀ (ps : List Process) (name : String) (now fresh : Nat)
      (os : Option (Option Nat)),
      (∀ p ∈ ps, RInv p) →
      ∀ q ∈ spawn_in_list ps name now fresh os, RInv q := by
  intro ps name now fresh os
  induction ps with
  | nil =>
      intro _ q hq
      simp [spawn_in_list] at hq
  | cons a rest ih =>
      intro h q hq
      unfold spawn_in_list at hq
      by_cases ha : a.name = name
      · rw [if_pos ha] at hq
        rcases List.mem_cons.mp hq with rfl | hq2
        · exact RInv_spawn a now fresh os (h a (List.mem_cons_self a rest))
        · exact h q (List.mem_cons_of_mem a hq2)
      · rw [if_neg ha] at hq
        rcases List.mem_cons.mp hq with rfl | hq2
        · exact h q (List.mem_cons_self q rest)
        · exact ih (fun p hp => h p (List.mem_cons_of_mem a hp)) q hq2

theorem RInv_process_died_list :
    ∀ (ps : List Process) (id status now : Nat),
      (∀ p ∈ ps, RInv p) →
      ∀ q ∈ process_died_list ps id status now, RInv q := by
  intro ps id status now
  induction ps with
  | nil =>
      intro _ q hq
      simp [process_died_list] at hq
  | cons a rest ih =>
      intro h q hq
      unfold process_died_list at hq
      by_cases ha : a.uuid = id
      · rw [if_pos ha] at hq
        rcases List.mem_cons.mp hq with rfl | hq2
        · exact RInv_died_update a status now
        · exact h q (List.mem_cons_of_mem a hq2)
      · rw [if_neg ha] at hq
        rcases List.mem_cons.mp hq with rfl | hq2
        · exact h q (List.mem_cons_self q rest)
        · exact ih (fun p hp => h p (List.mem_cons_of_mem a hp)) q hq2

theorem RInv_remove_list :
    ∀ (ps : List Process) (name : String),
      (∀ p ∈ ps, RInv p) →
      ∀ q ∈ (remove_list ps name).1, RInv q := by
  intro ps name
  induction ps with
  | nil =>
      intro _ q hq
      simp [remove_list] at hq
  | cons a rest ih =>
      intro h q hq
      unfold remove_list at hq
      by_cases ha : a.name = name
      · rw [if_pos ha] at hq
        rcases List.mem_cons.mp hq with rfl | hq2
        · exact RInv_kill a (h a (List.mem_cons_self a rest))
        · exact h q (List.mem_cons_of_mem a hq2)
      · rw [if_neg ha] at hq
        rcases List.mem_cons.mp hq with rfl | hq2
        · exact h q (List.mem_cons_self q rest)
        · exact ih (fun p hp => h p (List.mem_cons_of_mem a hp)) q hq2

theorem RInv_push_stats_list :
    ∀ (ps : List Process) (name : String) (s : ProcessStats),
      (∀ p ∈ ps, RInv p) →
      ∀ q ∈ push_stats_list ps name s, RInv q := by
  intro ps name s
  induction ps with
  | nil =>
      intro _ q hq
      simp [push_stats_list] at hq
  | cons a rest ih =>
      intro h q hq
      unfold push_stats_list at hq
      by_cases ha : a.name = name
      · rw [if_pos ha] at hq
        rcases List.mem_cons.mp hq with rfl | hq2
        · exact RInv_push_stats a s
        · exact h q (List.mem_cons_of_mem a hq2)
      · rw [if_neg ha] at hq
        rcases List.mem_cons.mp hq with rfl | hq2
        · exact h q (List.mem_cons_self q rest)
        · exact ih (fun p hp => h p (List.mem_cons_of_mem a hp)) q hq2

/-- Every process record of a manager state satisfies `RInv`. -/
def AllRInv (m : ProcessManager) : Prop :=
  ∀ p ∈ m.processes, RInv p

theorem AllRInv_spawn (m : ProcessManager) (name : String) (now : Nat)
    (osRes : Nat → Option (Option Nat)) (h : AllRInv m) :
    AllRInv (m.spawn name now osRes) := by
  unfold ProcessManager.spawn
  split
  · intro p hp
    exact RInv_spawn_in_list m.processes name now m.next_uuid (osRes m.next_uuid) h p hp
  · exact h

theorem AllRInv_foldl_spawn (now : Nat) (osRes : Nat → Option (Option Nat)) :
    ∀ (names : List String) (m : ProcessManager), AllRInv m →
      AllRInv (names.foldl (fun m0 nm => m0.spawn nm now osRes) m) := by
  intro names
  induction names with
  | nil =>
      intro m h
      exact h
  | cons nm rest ih =>
      intro m h
      rw [List.foldl_cons]
      exact ih _ (AllRInv_spawn m nm now osRes h)

theorem AllRInv_upsert (m : ProcessManager) (svc : Service) (now : Nat)
    (osRes : Nat → Option (Option Nat)) (h : AllRInv m) :
    AllRInv (m.upsert svc now osRes) := by
  unfold ProcessManager.upsert
  split
  · apply AllRInv_spawn
    intro p hp
    rcases List.mem_append.mp hp with hp2 | hp2
    · exact h p hp2
    · rw [List.mem_singleton.mp hp2]
      exact RInv_new svc now
  · exact h

theorem AllRInv_assign_stats (m : ProcessManager) (snap : Nat → Option SysInfo)
    (now : Nat) (h : AllRInv m) : AllRInv (m.assign_stats snap now) := by
  intro p hp
  obtain ⟨q, hq, rfl⟩ := List.mem_map.mp hp
  exact RInv_assign_one snap now q (h q hq)

theorem AllRInv_check_restarts (m : ProcessManager) (now : Nat)
    (osRes : Nat → Option (Option Nat)) (h : AllRInv m) :
    AllRInv (check_restarts m now osRes) := by
  unfold check_restarts
  apply AllRInv_foldl_spawn
  intro p hp
  obtain ⟨q, hq, rfl⟩ := List.mem_map.mp hp
  unfold mark_restart
  split
  · exact RInv_of_same q _ rfl rfl (h q hq)
  · exact h q hq

theorem AllRInv_tick (m : ProcessManager) (now : Nat) (snap : Nat → Option SysInfo)
    (osRes : Nat → Option (Option Nat)) (h : AllRInv m) :
    AllRInv (m.tick now snap osRes) :=
  AllRInv_check_restarts _ now osRes (AllRInv_assign_stats m snap now h)

theorem AllRInv_stepOp (m : ProcessManager) (op : Op) (h : AllRInv m) :
    AllRInv (stepOp m op) := by
  cases op with
  | upsert svc now osRes => exact AllRInv_upsert m svc now osRes h
  | tick now snap osRes => exact AllRInv_tick m now snap osRes h
  | process_died id status now =>
      intro p hp
      exact RInv_process_died_list m.processes id status now h p hp
  | remove name =>
      intro p hp
      exact RInv_remove_list m.processes name h p hp
  | push_stats name s =>
      intro p hp
      exact RInv_push_stats_list m.processes name s h p hp

theorem AllRInv_foldl_stepOp :
    ∀ (ops : List Op) (m : ProcessManager), AllRInv m →
      AllRInv (ops.foldl stepOp m) := by
  intro ops
  induction ops with
  | nil =>
      intro m h
      exact h
  | cons op rest ih =>
      intro m h
      rw [List.foldl_cons]
      exact ih _ (AllRInv_stepOp m op h)

/-- C3 (amended): over every sequence of manager operations (upsert, tick,
process_died, remove, push_stats) from the initial empty manager, a tracked
process whose state carries `RestartAt` has an enabled restart policy.  The
claim's stronger clauses — that `RestartAt` entails a counter strictly below
the maximum, and that reaching the maximum makes `NoRestart` final — do not
hold (see the counterexample): `Process::spawn` leaves the state field
untouched, so a tick-respawned process keeps its stale `Stopped(RestartAt)`
state while its incremented counter reaches (or passes) the maximum, until a
stat sample or a new death overwrites the state. -/
theorem restartAt_requires_enabled (ops : List Op) (p : Process)
    (hp : p ∈ (run ops).processes) (h : hasRestartAt p.state = true) :
    p.restart_policy.enabled = true := by
  have hinit : AllRInv initManager := by
    intro q hq
    simp [initManager] at hq
  exact AllRInv_foldl_stepOp ops initManager hinit p hp h

/-- A service with an enabled restart policy (cooloff 0, max 1 restart). -/
def c3svc : Service :=
  { name := "a", restart := { enabled := true, cooloff := 0, max_restarts := 1 },
    cmdOk := true }

/-- OS outcome oracle: every spawn succeeds with child pid 7. -/
def osOk : Nat → Option (Option Nat) := fun _ => some (some 7)

/-- A sysinfo snapshot reporting no processes. -/
def snapNone : Nat → Option SysInfo := fun _ => none

/-- upsert "a", then its incarnation (uuid 1) dies at time 0. -/
def c3wOps : List Op := [Op.upsert c3svc 0 osOk, Op.process_died 1 0 0]

/-- The single tracked process after `c3wOps`. -/
def c3wProc : Process := ((run c3wOps).processes).getD 0 (Process.new c3svc 0)

/-- Witness for C3's amended theorem: after an upsert and a death under an
enabled policy the process carries `RestartAt`, and the theorem yields that
its policy is enabled. -/
theorem restartAt_requires_enabled_witness :
    c3wProc ∈ (run c3wOps).processes ∧ hasRestartAt c3wProc.state = true ∧
    c3wProc.restart_policy.enabled = true :=
  ⟨by decide, by decide,
    restartAt_requires_enabled c3wOps c3wProc (by decide) (by decide)⟩

/-- Counterexample to C3 as stated: upsert "a" (enabled policy, max 1,
cooloff 0), let its incarnation die (state becomes `Stopped(RestartAt 0)`,
restarts 0), then tick at time 1 with the dead pid absent from the snapshot.
The tick increments the counter to the maximum (1) and respawns, but
`Process::spawn` never touches the state, so the sole tracked record still
carries `RestartAt` while its counter equals the maximum — the claim says
`RestartAt` appears only while the counter is strictly below the maximum and
that `NoRestart` is final once the maximum is reached. -/
theorem restartAt_persists_at_max_cex :
    (run [Op.upsert c3svc 0 osOk, Op.process_died 1 0 0,
          Op.tick 1 snapNone osOk]).processes.map
        (fun q => (hasRestartAt q.state, q.restarts, q.restart_policy.max_restarts)) =
      [(true, 1, 1)] := by
  decide

/-! ## Positional behaviour of `tick` restarts (claim C2) -/

theorem getElem?_map_name (f : Process → Process) (hf : ∀ q, (f q).name = q.name)
    (ps : List Process) (j : Nat) :
    ((ps.map f)[j]?).map (fun q => q.name) = (ps[j]?).map (fun q => q.name) := by
  rw [List.getElem?_map]
  cases ps[j]? with
  | none => rfl
  | some q => simp [hf q]

theorem spawn_in_list_getElem_ne (name : String) (now fresh : Nat)
    (os : Option (Option Nat)) :
    ∀ (ps : List Process) (i : Nat) (p : Process),
      ps[i]? = some p → ¬(p.name = name) →
      (spawn_in_list ps name now fresh os)[i]? = some p := by
  intro ps
  induction ps with
  | nil =>
      intro i p h _
      simp at h
  | cons a rest ih =>
      intro i p h hne
      cases i with
      | zero =>
          rw [List.getElem?_cons_zero] at h
          have ha : a = p := Option.some_inj.mp h
          subst ha
          unfold spawn_in_list
          rw [if_neg hne]
          exact List.getElem?_cons_zero
      | succ j =>
          rw [List.getElem?_cons_succ] at h
          unfold spawn_in_list
          by_cases ha : a.name = name
          · rw [if_pos ha, List.getElem?_cons_succ]
            exact h
          · rw [if_neg ha, List.getElem?_cons_succ]
            exact ih j p h hne

theorem spawn_in_list_getElem_hit (name : String) (now fresh : Nat)
    (os : Option (Option Nat)) :
    ∀ (ps : List Process) (i : Nat) (p : Process),
      ps[i]? = some p → p.name = name →
      (∀ j, j < i → ∀ q, ps[j]? = some q → ¬(q.name = name)) →
      (spawn_in_list ps name now fresh os)[i]? = some ((p.spawn now fresh os).1) := by
  intro ps
  induction ps with
  | nil =>
      intro i p h _ _
      simp at h
  | cons a rest ih =>
      intro i p h hname hearlier
      cases i with
      | zero =>
          rw [List.getElem?_cons_zero] at h
          have ha : a = p := Option.some_inj.mp h
          subst ha
          unfold spawn_in_list
          rw [if_pos hname]
          exact List.getElem?_cons_zero
      | succ j =>
          rw [List.getElem?_cons_succ] at h
          have hahead : ¬(a.name = name) :=
            hearlier 0 (Nat.succ_pos j) a List.getElem?_cons_zero
          unfold spawn_in_list
          rw [if_neg hahead, List.getElem?_cons_succ]
          exact ih j p h hname
            (fun k hk q hq => hearlier (k + 1) (Nat.succ_lt_succ hk) q
              (by rw [List.getElem?_cons_succ]; exact hq))

theorem spawn_in_list_getElem_name (name : String) (now fresh : Nat)
    (os : Option (Option Nat)) :
    ∀ (ps : List Process) (j : Nat),
      ((spawn_in_list ps name now fresh os)[j]?).map (fun q => q.name) =
        (ps[j]?).map (fun q => q.name) := by
  intro ps
  induction ps with
  | nil =>
      intro j
      simp [spawn_in_list]
  | cons a rest ih =>
      intro j
      unfold spawn_in_list
      by_cases ha : a.name = name
      · rw [if_pos ha]
        cases j with
        | zero =>
            rw [List.getElem?_cons_zero, List.getElem?_cons_zero]
            simp [spawn_fst_name]
        | succ k =>
            rw [List.getElem?_cons_succ, List.getElem?_cons_succ]
      · rw [if_neg ha]
        cases j with
        | zero =>
            rw [List.getElem?_cons_zero, List.getElem?_cons_zero]
        | succ k =>
            rw [List.getElem?_cons_succ, List.getElem?_cons_succ]
            exact ih k

theorem hasName_of_getElem (ps : List Process) (i : Nat) (p : Process)
    (h : ps[i]? = some p) (hname : p.name = name) : hasName ps name = true := by
  unfold hasName
  rw [List.any_eq_true]
  exact ⟨p, List.getElem?_mem h, by simp [hname]⟩

theorem spawn_getElem_ne (m : ProcessManager) (name : String) (now : Nat)
    (osRes : Nat → Option (Option Nat)) (i : Nat) (p : Process)
    (h : m.processes[i]? = some p) (hne : ¬(p.name = name)) :
    (m.spawn name now osRes).processes[i]? = some p := by
  unfold ProcessManager.spawn
  split
  · exact spawn_in_list_getElem_ne name now m.next_uuid (osRes m.next_uuid)
      m.processes i p h hne
  · exact h

theorem spawn_getElem_name (m : ProcessManager) (name : String) (now : Nat)
    (osRes : Nat → Option (Option Nat)) (j : Nat) :
    ((m.spawn name now osRes).processes[j]?).map (fun q => q.name) =
      (m.processes[j]?).map (fun q => q.name) := by
  unfold ProcessManager.spawn
  split
  · exact spawn_in_list_getElem_name name now m.next_uuid (osRes m.next_uuid)
      m.processes j
  · rfl

theorem spawn_uuid_mono (m : ProcessManager) (name : String) (now : Nat)
    (osRes : Nat → Option (Option Nat)) :
    m.next_uuid ≤ (m.spawn name now osRes).next_uuid := by
  unfold ProcessManager.spawn
  split
  · exact Nat.le_succ m.next_uuid
  · exact Nat.le_refl m.next_uuid

theorem spawn_getElem_hit (m : ProcessManager) (name : String) (now : Nat)
    (osRes : Nat → Option (Option Nat)) (i : Nat) (p : Process)
    (h : m.processes[i]? = some p) (hname : p.name = name)
    (hearlier : ∀ j, j < i → ∀ q, m.processes[j]? = some q → ¬(q.name = name)) :
    (m.spawn name now osRes).processes[i]? =
      some ((p.spawn now m.next_uuid (osRes m.next_uuid)).1) := by
  unfold ProcessManager.spawn
  rw [if_pos (hasName_of_getElem m.processes i p h hname)]
  exact spawn_in_list_getElem_hit name now m.next_uuid (osRes m.next_uuid)
    m.processes i p h hname hearlier

theorem foldl_spawn_getElem_ne (now : Nat) (osRes : Nat → Option (Option Nat)) :
    ∀ (names : List String) (m : ProcessManager) (i : Nat) (p : Process),
      m.processes[i]? = some p → (∀ nm ∈ names, ¬(p.name = nm)) →
      (List.foldl (fun m0 nm => m0.spawn nm now osRes) m names).processes[i]? =
        some p := by
  intro names
  induction names with
  | nil =>
      intro m i p h _
      exact h
  | cons nm rest ih =>
      intro m i p h hne
      rw [List.foldl_cons]
      exact ih _ i p
        (spawn_getElem_ne m nm now osRes i p h (hne nm (List.mem_cons_self nm rest)))
        (fun nm2 h2 => hne nm2 (List.mem_cons_of_mem nm h2))

theorem foldl_spawn_getElem_name (now : Nat) (osRes : Nat → Option (Option Nat)) :
    ∀ (names : List String) (m : ProcessManager) (j : Nat),
      ((List.foldl (fun m0 nm => m0.spawn nm now osRes) m names).processes[j]?).map
          (fun q => q.name) =
        (m.processes[j]?).map (fun q => q.name) := by
  intro names
  induction names with
  | nil =>
      intro m j
      rfl
  | cons nm rest ih =>
      intro m j
      rw [List.foldl_cons, ih, spawn_getElem_name]

theorem foldl_spawn_uuid_mono (now : Nat) (osRes : Nat → Option (Option Nat)) :
    ∀ (names : List String) (m : ProcessManager),
      m.next_uuid ≤
        (List.foldl (fun m0 nm => m0.spawn nm now osRes) m names).next_uuid := by
  intro names
  induction names with
  | nil =>
      intro m
      exact Nat.le_refl _
  | cons nm rest ih =>
      intro m
      rw [List.foldl_cons]
      exact Nat.le_trans (spawn_uuid_mono m nm now osRes) (ih _)

theorem names_nodup_index (ps : List Process)
    (hnodup : (ps.map (fun q => q.name)).Nodup) (i j : Nat) (p q : Process)
    (hi : ps[i]? = some p) (hj : ps[j]? = some q) (hname : p.name = q.name) :
    i = j := by
  have hmi : (ps.map (fun q => q.name))[i]? = some p.name := by
    rw [List.getElem?_map, hi]
    rfl
  have hmj : (ps.map (fun q => q.name))[j]? = some q.name := by
    rw [List.getElem?_map, hj]
    rfl
  have hlen : i < (ps.map (fun q => q.name)).length :=
    (List.getElem?_eq_some.mp hmi).1
  exact List.getElem?_inj hlen hnodup (by rw [hmi, hmj, hname])

theorem foldl_spawn_hit (now : Nat) (osRes : Nat → Option (Option Nat))
    (names1 names2 : List String) (m : ProcessManager) (i : Nat) (p : Process)
    (hp : m.processes[i]? = some p)
    (h1 : ∀ nm ∈ names1, ¬(p.name = nm))
    (h2 : ∀ nm ∈ names2, ¬(p.name = nm))
    (hearlier : ∀ j, j < i → ∀ q, m.processes[j]? = some q → ¬(q.name = p.name)) :
    ∃ u1, m.next_uuid ≤ u1 ∧
      (List.foldl (fun m0 nm => m0.spawn nm now osRes) m
          (names1 ++ p.name :: names2)).processes[i]? =
        some ((p.spawn now u1 (osRes u1)).1) := by
  rw [List.foldl_append, List.foldl_cons]
  have hM1p : (List.foldl (fun m0 nm => m0.spawn nm now osRes) m names1).processes[i]? =
      some p :=
    foldl_spawn_getElem_ne now osRes names1 m i p hp h1
  have hilen : i < m.processes.length := (List.getElem?_eq_some.mp hp).1
  have hearlier1 : ∀ j, j < i → ∀ q,
      (List.foldl (fun m0 nm => m0.spawn nm now osRes) m names1).processes[j]? =
        some q → ¬(q.name = p.name) := by
    intro j hj q hq hcon
    have hjlen : j < m.processes.length := Nat.lt_trans hj hilen
    have hjm : m.processes[j]? = some (m.processes[j]) :=
      List.getElem?_eq_getElem hjlen
    have hchain := foldl_spawn_getElem_name now osRes names1 m j
    rw [hq, hjm] at hchain
    have hqq : q.name = (m.processes[j]).name := by
      simpa using hchain
    exact hearlier j hj (m.processes[j]) hjm (by rw [← hqq]; exact hcon)
  have hhit := spawn_getElem_hit
    (List.foldl (fun m0 nm => m0.spawn nm now osRes) m names1) p.name now osRes i p
    hM1p rfl hearlier1
  refine ⟨(List.foldl (fun m0 nm => m0.spawn nm now osRes) m names1).next_uuid,
    foldl_spawn_uuid_mono now osRes names1 m, ?_⟩
  apply foldl_spawn_getElem_ne now osRes names2 _ i _ hhit
  intro nm hx hcon
  apply h2 nm hx
  rw [← hcon, spawn_fst_name]

theorem check_restarts_untouched (A : ProcessManager) (now : Nat)
    (osRes : Nat → Option (Option Nat)) (i : Nat) (p1 : Process)
    (hnodupA : (A.processes.map (fun q => q.name)).Nodup)
    (hA : A.processes[i]? = some p1)
    (hnotdue : dueRestart p1 now = false) :
    (check_restarts A now osRes).processes[i]? = some p1 := by
  simp only [check_restarts]
  apply foldl_spawn_getElem_ne
  · show (A.processes.map _)[i]? = some p1
    rw [List.getElem?_map, hA]
    simp [mark_restart, hnotdue]
  · intro nm hnm hcon
    obtain ⟨r, hrfil, hrname⟩ := List.mem_map.mp hnm
    have hrA : r ∈ A.processes := (List.mem_filter.mp hrfil).1
    have hrdue : dueRestart r now = true := (List.mem_filter.mp hrfil).2
    obtain ⟨j, hjlen, hjr⟩ := List.getElem_of_mem hrA
    have hjA : A.processes[j]? = some r := by
      rw [List.getElem?_eq_getElem hjlen, hjr]
    have hji : j = i :=
      names_nodup_index A.processes hnodupA j i r p1 hjA hA
        (by rw [hrname, ← hcon])
    rw [hji, hA] at hjA
    have hrp : r = p1 := Option.some_inj.mp hjA.symm
    rw [hrp, hnotdue] at hrdue
    exact Bool.false_ne_true hrdue

theorem check_restarts_due (A : ProcessManager) (now : Nat)
    (osRes : Nat → Option (Option Nat)) (i : Nat) (p1 : Process)
    (hnodupA : (A.processes.map (fun q => q.name)).Nodup)
    (hA : A.processes[i]? = some p1)
    (hdue : dueRestart p1 now = true) :
    ∃ u1, A.next_uuid ≤ u1 ∧
      (check_restarts A now osRes).processes[i]? =
        some ((({ p1 with restarts := p1.restarts + 1 } : Process).spawn
          now u1 (osRes u1)).1) := by
  simp only [check_restarts]
  have hmem : p1 ∈ A.processes := List.getElem?_mem hA
  have hfil : p1 ∈ A.processes.filter (fun q => dueRestart q now) :=
    List.mem_filter.mpr ⟨hmem, hdue⟩
  have hnm : p1.name ∈
      (A.processes.filter (fun q => dueRestart q now)).map (fun q => q.name) :=
    List.mem_map_of_mem _ hfil
  obtain ⟨n1, n2, heq⟩ := List.mem_iff_append.mp hnm
  have hnodupNames :
      ((A.processes.filter (fun q => dueRestart q now)).map
        (fun q => q.name)).Nodup :=
    List.Nodup.sublist
      (List.Sublist.map (fun q => q.name) (List.filter_sublist A.processes)) hnodupA
  rw [heq] at hnodupNames
  obtain ⟨hn1, hn2cons, hdisj⟩ := List.nodup_append.mp hnodupNames
  have hnotin1 : p1.name ∉ n1 :=
    fun hmem1 => hdisj hmem1 (List.mem_cons_self _ _)
  have hnotin2 : p1.name ∉ n2 := (List.nodup_cons.mp hn2cons).1
  have hM0 : (A.processes.map (mark_restart now))[i]? =
      some ({ p1 with restarts := p1.restarts + 1 } : Process) := by
    rw [List.getElem?_map, hA]
    simp [mark_restart, hdue]
  have hM0earlier : ∀ j, j < i → ∀ q,
      (A.processes.map (mark_restart now))[j]? = some q →
      ¬(q.name = ({ p1 with restarts := p1.restarts + 1 } : Process).name) := by
    intro j hj q hq hcon
    have hilen : i < A.processes.length := (List.getElem?_eq_some.mp hA).1
    have hjlen : j < A.processes.length := Nat.lt_trans hj hilen
    have hjA : A.processes[j]? = some (A.processes[j]) :=
      List.getElem?_eq_getElem hjlen
    have hchain := getElem?_map_name (mark_restart now)
      (fun r => by unfold mark_restart; split <;> rfl) A.processes j
    rw [hq, hjA] at hchain
    have hqq : q.name = (A.processes[j]).name := by
      simpa using hchain
    have hji : j = i :=
      names_nodup_index A.processes hnodupA j i (A.processes[j]) p1 hjA hA
        (by rw [← hqq]; exact hcon)
    exact absurd hji (Nat.ne_of_lt hj)
  rw [heq]
  obtain ⟨u1, hu1, hfinal⟩ := foldl_spawn_hit now osRes n1 n2
    ({ A with processes := A.processes.map (mark_restart now) } : ProcessManager)
    i ({ p1 with restarts := p1.restarts + 1 } : Process)
    hM0
    (fun nm hx hcon => hnotin1 (by rw [show p1.name = nm from hcon]; exact hx))
    (fun nm hx hcon => hnotin2 (by rw [show p1.name = nm from hcon]; exact hx))
    hM0earlier
  exact ⟨u1, hu1, hfinal⟩

theorem assign_one_no_report (snap : Nat → Option SysInfo) (now : Nat) (p : Process)
    (h : ∀ pid0, p.pid = some pid0 → snap pid0 = none) :
    assign_one snap now p = p := by
  unfold assign_one
  split
  · rfl
  · rename_i pid0 hpid
    split
    · rfl
    · rename_i info hsnap
      rw [h pid0 hpid] at hsnap
      exact absurd hsnap (by simp)

theorem assign_one_pushed (snap : Nat → Option SysInfo) (now : Nat) (p : Process)
    (pid0 : Nat) (info : SysInfo)
    (hpid : p.pid = some pid0) (hsnap : snap pid0 = some info) :
    assign_one snap now p = p.push_stats
      { timestamp := now, cpu_percent := info.cpu_percent,
        memory_mb := info.memory_mb, uptime := info.uptime } := by
  unfold assign_one
  split
  · rename_i hnone
    rw [hpid] at hnone
    exact absurd hnone (by simp)
  · rename_i pid1 hpid1
    rw [hpid] at hpid1
    have hp01 : pid0 = pid1 := Option.some_inj.mp hpid1
    subst hp01
    split
    · rename_i hsn
      rw [hsnap] at hsn
      exact absurd hsn (by simp)
    · rename_i info1 hsn1
      rw [hsnap] at hsn1
      have hii : info = info1 := Option.some_inj.mp hsn1
      subst hii
      rfl

theorem map_name_of_preserve (f : Process → Process)
    (hf : ∀ p, (f p).name = p.name) :
    ∀ ps : List Process,
      (ps.map f).map (fun q => q.name) = ps.map (fun q => q.name) := by
  intro ps
  induction ps with
  | nil => rfl
  | cons a r ih =>
      simp only [List.map_cons, hf a]
      rw [ih]

/-- C2 (amended): consider a process `p` at position `i` of the collection
that is in state `Stopped(RestartAt t, _)` when `tick()` runs, assuming the
tracked names are pairwise distinct (the documented caller obligation — the
manager does not deduplicate names) and every tracked uuid is below the
fresh-uuid supply.  If `t` is in the future, the tick leaves `p`'s
incarnation id and restart counter untouched.  If `t` has passed AND the
stat-distribution step (2) of the tick observes no OS stats for `p`'s stale
pid, the tick respawns `p` exactly once: its counter becomes exactly
`restarts + 1`, its incarnation id is replaced by a fresh one distinct from
the previous one, and `last_start` becomes the tick time. -/
theorem tick_restart_due (m : ProcessManager) (now : Nat)
    (snap : Nat → Option SysInfo) (osRes : Nat → Option (Option Nat))
    (i : Nat) (p : Process) (t status : Nat)
    (hnodup : (m.processes.map (fun q => q.name)).Nodup)
    (hfresh : ∀ q ∈ m.processes, q.uuid < m.next_uuid)
    (hi : m.processes[i]? = some p)
    (hstate : p.state = ProcessState.Stopped (ProcessRestart.RestartAt t) status) :
    ∃ q, (m.tick now snap osRes).processes[i]? = some q ∧
      (now < t → q.uuid = p.uuid ∧ q.restarts = p.restarts) ∧
      (t ≤ now → (∀ pid0, p.pid = some pid0 → snap pid0 = none) →
        q.restarts = p.restarts + 1 ∧ q.uuid ≠ p.uuid ∧ q.last_start = some now) := by
  have hnodupA : ((m.processes.map (assign_one snap now)).map
      (fun q => q.name)).Nodup := by
    rw [map_name_of_preserve (assign_one snap now) (assign_one_name snap now)]
    exact hnodup
  have hA_i : (m.assign_stats snap now).processes[i]? =
      some (assign_one snap now p) := by
    show (m.processes.map _)[i]? = _
    rw [List.getElem?_map, hi]
    rfl
  have hmemp : p ∈ m.processes := List.getElem?_mem hi
  by_cases hc : now < t
  · have hpnotdue : dueRestart p now = false := by
      unfold dueRestart
      rw [hstate]
      exact decide_eq_false (Nat.not_le.mpr hc)
    have hnotdue : dueRestart (assign_one snap now p) now = false := by
      unfold assign_one
      split
      · exact hpnotdue
      · split
        · exact hpnotdue
        · rfl
    refine ⟨assign_one snap now p,
      check_restarts_untouched (m.assign_stats snap now) now osRes i _
        hnodupA hA_i hnotdue, ?_, ?_⟩
    · intro _
      exact ⟨assign_one_uuid snap now p, assign_one_restarts snap now p⟩
    · intro ht _
      exact absurd ht (Nat.not_le.mpr hc)
  · have ht : t ≤ now := Nat.le_of_not_lt hc
    by_cases hrep : ∃ pid0 info, p.pid = some pid0 ∧ snap pid0 = some info
    · obtain ⟨pid0, info, hpid, hsn⟩ := hrep
      have hp1 : assign_one snap now p = p.push_stats
          { timestamp := now, cpu_percent := info.cpu_percent,
            memory_mb := info.memory_mb, uptime := info.uptime } :=
        assign_one_pushed snap now p pid0 info hpid hsn
      have hnotdue : dueRestart (assign_one snap now p) now = false := by
        rw [hp1]
        rfl
      refine ⟨assign_one snap now p,
        check_restarts_untouched (m.assign_stats snap now) now osRes i _
          hnodupA hA_i hnotdue, ?_, ?_⟩
      · intro hcc
        exact absurd hcc hc
      · intro _ hsnapH
        exfalso
        have hcontra := hsnapH pid0 hpid
        rw [hsn] at hcontra
        exact Option.noConfusion hcontra
    · have hnone : ∀ pid0, p.pid = some pid0 → snap pid0 = none := by
        intro pid0 hpid
        cases hsn : snap pid0 with
        | none => rfl
        | some info => exact absurd ⟨pid0, info, hpid, hsn⟩ hrep
      have hp1 : assign_one snap now p = p := assign_one_no_report snap now p hnone
      have hdue : dueRestart (assign_one snap now p) now = true := by
        rw [hp1]
        unfold dueRestart
        rw [hstate]
        exact decide_eq_true ht
      obtain ⟨u1, hu1, hfinal⟩ := check_restarts_due (m.assign_stats snap now)
        now osRes i _ hnodupA hA_i hdue
      refine ⟨_, hfinal, ?_, ?_⟩
      · intro hcc
        exact absurd hcc hc
      · intro _ _
        refine ⟨?_, ?_, ?_⟩
        · rw [spawn_fst_restarts]
          show (assign_one snap now p).restarts + 1 = p.restarts + 1
          rw [assign_one_restarts]
        · rw [spawn_fst_uuid]
          have hpu : p.uuid < m.next_uuid := hfresh p hmemp
          exact ne_of_gt (Nat.lt_of_lt_of_le hpu hu1)
        · exact spawn_fst_last_start _ now u1 _

/-- A tracked process awaiting restart at time 5 (uuid 1, stale pid 7). -/
def c2wProc : Process :=
  { name := "a", uuid := 1, closer := some ()
    state := ProcessState.Stopped (ProcessRestart.RestartAt 5) 0
    restarts := 0
    restart_policy := { enabled := true, cooloff := 1, max_restarts := 5 }
    pid := some 7, last_start := some 0, last_stop := some 0, stats := []
    stats_max := { timestamp := 0, cpu_percent := 0, memory_mb := 0, uptime := 0 } }

/-- A manager tracking only `c2wProc`, fresh-uuid supply at 2. -/
def c2wMgr : ProcessManager := { processes := [c2wProc], next_uuid := 2 }

/-- Witness for C2's amended theorem: a tick at time 9 (past the restart
time 5) with an empty snapshot respawns the process once. -/
theorem tick_restart_due_witness :
    ∃ q, (c2wMgr.tick 9 snapNone osOk).processes[0]? = some q ∧
      (9 < 5 → q.uuid = c2wProc.uuid ∧ q.restarts = c2wProc.restarts) ∧
      (5 ≤ 9 → (∀ pid0, c2wProc.pid = some pid0 → snapNone pid0 = none) →
        q.restarts = c2wProc.restarts + 1 ∧ q.uuid ≠ c2wProc.uuid ∧
        q.last_start = some 9) :=
  tick_restart_due c2wMgr 9 snapNone osOk 0 c2wProc 5 0
    (by decide) (by decide) (by decide) (by decide)

/-- `c2wProc` already due at time 0 (restart time 0). -/
def c2cexProc : Process :=
  { c2wProc with state := ProcessState.Stopped (ProcessRestart.RestartAt 0) 0 }

/-- A snapshot that still reports stats for pid 7. -/
def snap7 : Nat → Option SysInfo :=
  fun pid => if pid = 7 then
    some { cpu_percent := 1, memory_mb := 1, uptime := 1 } else none

/-- A second process of the same name "a", currently running (uuid 3). -/
def c2dupA : Process := { c2cexProc with uuid := 3, state := ProcessState.Running }

/-- A same-named due process (uuid 5). -/
def c2dupB : Process := { c2cexProc with uuid := 5 }

/-- Counterexample to C2 as stated, in two reachable scenarios.  First: a
process due for restart (`RestartAt 0`, tick at time 3) whose stale pid is
still reported by the snapshot is flipped to `Running` by the
stat-distribution step before the restart scan, so it is NOT respawned —
uuid and counter are unchanged — though its restart time had passed.
Second: with two tracked processes sharing the name "a" (reachable, since
`upsert` does not deduplicate), the due one (uuid 5) gets its counter
incremented but `spawn` respawns the first process of that name instead
(uuid 3 becomes fresh uuid 10), so the due process keeps its old incarnation
id — no fresh incarnation id distinct from its previous one is assigned to
it. -/
theorem tick_restart_claim_fails_cex :
    c2cexProc.state = ProcessState.Stopped (ProcessRestart.RestartAt 0) 0 ∧
    ((ProcessManager.tick { processes := [c2cexProc], next_uuid := 2 } 3 snap7
        osOk).processes.map (fun q => (q.uuid, q.restarts, q.state))) =
      [(1, 0, ProcessState.Running)] ∧
    c2dupB.state = ProcessState.Stopped (ProcessRestart.RestartAt 0) 0 ∧
    ((ProcessManager.tick { processes := [c2dupA, c2dupB], next_uuid := 10 } 3
        snapNone osOk).processes.map (fun q => (q.uuid, q.restarts))) =
      [(10, 0), (5, 1)] := by
  decide

end Procli
